import Mathlib

set_option maxRecDepth 10000

/-!
Shallow embedding of the marching-tetrahedra program (`src/main.rs`).

Scalars that the Rust program holds in `f64` are modelled as rationals
(`ℚ`); machine integers (`i32`, `usize`) as `ℤ`/`ℕ` (no arithmetic in
the program approaches their overflow range).  The Rust slice indexing
operations are modelled with `List.getD`; the accompanying bounds
theorems show each actual index is in range, so the defaults are never
what the program sees.  Every definition follows the corresponding item
of the Rust source; names are kept where Lean allows.
-/

/-- `struct Vec3 { x: f64, y: f64, z: f64 }` with `f64` modelled as `ℚ`. -/
structure Vec3 where
  x : ℚ
  y : ℚ
  z : ℚ
deriving DecidableEq, Repr

instance : Inhabited Vec3 := ⟨⟨0, 0, 0⟩⟩

/-- `struct IVec3 { x: i32, y: i32, z: i32 }`. -/
structure IVec3 where
  x : ℤ
  y : ℤ
  z : ℤ
deriving DecidableEq, Repr

/-- `impl Add<IVec3> for IVec3`: componentwise addition. -/
def IVec3.add (a b : IVec3) : IVec3 :=
  ⟨a.x + b.x, a.y + b.y, a.z + b.z⟩

instance : Add IVec3 := ⟨IVec3.add⟩

/-- `struct Face { v1, v2, v3: usize }`. -/
structure Face where
  v1 : ℕ
  v2 : ℕ
  v3 : ℕ
deriving DecidableEq, Repr

/-- `struct Edge { v1, v2: usize }`. -/
structure Edge where
  v1 : ℕ
  v2 : ℕ
deriving DecidableEq, Repr

/-- `struct Mesh { verts: Vec<Vec3>, faces: Vec<Face>, edges: Vec<Edge> }`. -/
structure Mesh where
  verts : List Vec3 := []
  faces : List Face := []
  edges : List Edge := []
deriving DecidableEq, Repr

/-- `struct Domain` (`from`, `to`, `surface_weight`, `width`, `height`,
`depth`, `meshes`).  `from` is a Lean keyword, hence `from'`/`to'`. -/
structure Domain where
  from' : Vec3
  to' : Vec3
  surface_weight : ℚ
  width : ℕ
  height : ℕ
  depth : ℕ
  meshes : List Mesh
deriving DecidableEq, Repr

/-- `const TETRADEDRA_VERTMASK_TO_EDGES: [[isize; 6]; 8]`. -/
def TETRADEDRA_VERTMASK_TO_EDGES : List (List ℤ) :=
  [[-1, -1, -1, -1, -1, -1],
   [0, 1, 2, -1, -1, -1],
   [0, 5, 3, -1, -1, -1],
   [1, 2, 3, 3, 2, 5],
   [1, 3, 4, -1, -1, -1],
   [4, 2, 3, 3, 2, 0],
   [1, 0, 4, 4, 0, 5],
   [2, 5, 4, -1, -1, -1]]

/-- `const GRID_TO_VERT_OFFSETS: [IVec3; 8]`: the 8 corners of the unit cube. -/
def GRID_TO_VERT_OFFSETS : List IVec3 :=
  [⟨0, 0, 0⟩, ⟨1, 0, 0⟩, ⟨1, 1, 0⟩, ⟨0, 1, 0⟩,
   ⟨0, 0, 1⟩, ⟨1, 0, 1⟩, ⟨1, 1, 1⟩, ⟨0, 1, 1⟩]

/-- `const GRID_TO_TETRAHEDRA_VERTICES: [[usize; 4]; 5]`. -/
def GRID_TO_TETRAHEDRA_VERTICES : List (List ℕ) :=
  [[0, 2, 7, 5], [1, 0, 5, 2], [3, 2, 7, 0], [4, 0, 7, 5], [6, 2, 5, 7]]

/-- `const TETRAHEDRA_EDGES_TO_VERT_OFFSETS: [[usize; 2]; 6]`. -/
def TETRAHEDRA_EDGES_TO_VERT_OFFSETS : List (List ℕ) :=
  [[0, 1], [0, 2], [0, 3], [1, 2], [2, 3], [3, 1]]

/-- `Domain::vertex_grid_size`. -/
def Domain.vertex_grid_size (d : Domain) : IVec3 :=
  ⟨(d.width : ℤ) + 1, (d.height : ℤ) + 1, (d.depth : ℤ) + 1⟩

/-- `Domain::vertex_position`: affine grid-to-world map, componentwise
`from + g * (to - from) / n`. -/
def Domain.vertex_position (d : Domain) (vertex_grid_position : IVec3) : Vec3 :=
  ⟨d.from'.x + (vertex_grid_position.x : ℚ) * (d.to'.x - d.from'.x) / (d.width : ℚ),
   d.from'.y + (vertex_grid_position.y : ℚ) * (d.to'.y - d.from'.y) / (d.height : ℚ),
   d.from'.z + (vertex_grid_position.z : ℚ) * (d.to'.z - d.from'.z) / (d.depth : ℚ)⟩

/-- `fn get_vert_offsets(cell_pos: IVec3) -> ([IVec3; 8], bool)`: flips each
axis of the canonical corner offsets when the cell coordinate's absolute
value is odd on that axis; the parity flag is the count of set flips, taken
mod 2 (`count() & 1 != 0` in the source). -/
def get_vert_offsets (cell_pos : IVec3) : List IVec3 × Bool :=
  let flip_x : Bool := decide (cell_pos.x.natAbs &&& 1 ≠ 0)
  let flip_y : Bool := decide (cell_pos.y.natAbs &&& 1 ≠ 0)
  let flip_z : Bool := decide (cell_pos.z.natAbs &&& 1 ≠ 0)
  let grid_inverse : Bool :=
    decide ((([flip_x, flip_y, flip_z].filter (fun v => v)).length &&& 1) ≠ 0)
  let result := GRID_TO_VERT_OFFSETS.map (fun v =>
    ⟨if flip_x then 1 - v.x else v.x,
     if flip_y then 1 - v.y else v.y,
     if flip_z then 1 - v.z else v.z⟩)
  (result, grid_inverse)

/-- `fn refine_function_center`: midpoint of the two endpoints; the weight
function, its user data and the surface weight are ignored. -/
def refine_function_center {DATA : Type} (v1 v2 : Vec3)
    (_weight_function : Vec3 → DATA → ℚ) (_weight_user_data : DATA)
    (_surface_weight : ℚ) : Vec3 :=
  ⟨(v1.x + v2.x) * (1/2), (v1.y + v2.y) * (1/2), (v1.z + v2.z) * (1/2)⟩

/-- The `for _ in 0..8` loop of `refine_function_linear`; the state is
`(pos_left, pos_right, pos_center)`. -/
def refineLoop {DATA : Type} (weight_function : Vec3 → DATA → ℚ)
    (weight_user_data : DATA) (surface_weight : ℚ) :
    ℕ → Vec3 → Vec3 → Vec3 → Vec3 × Vec3 × Vec3
  | 0, pos_left, pos_right, pos_center => (pos_left, pos_right, pos_center)
  | n + 1, pos_left, pos_right, _ =>
    let pos_center := refine_function_center pos_left pos_right
      weight_function weight_user_data surface_weight
    if weight_function pos_center weight_user_data < surface_weight then
      refineLoop weight_function weight_user_data surface_weight n
        pos_center pos_right pos_center
    else
      refineLoop weight_function weight_user_data surface_weight n
        pos_left pos_center pos_center

/-- `fn refine_function_linear`: order the endpoints so the lower-weight one
is on the left, then bisect 8 times, returning the final center. -/
def refine_function_linear {DATA : Type} (v1 v2 : Vec3)
    (weight_function : Vec3 → DATA → ℚ) (weight_user_data : DATA)
    (surface_weight : ℚ) : Vec3 :=
  let w_left := weight_function v1 weight_user_data
  let w_right := weight_function v2 weight_user_data
  let pos_left := if w_left > w_right then v2 else v1
  let pos_right := if w_left > w_right then v1 else v2
  (refineLoop weight_function weight_user_data surface_weight 8
    pos_left pos_right pos_left).2.2

/-- The `for index in 0..tetrahedron_indices.len()` mask loop of
`march_tetrahedras`, applied to the list of the tetrahedron's four
inside/outside bits: `mask |= 1 << index` for each index whose bit is set. -/
def computeMask (inside : List Bool) : ℕ :=
  (List.range inside.length).foldl
    (fun mask index => if inside.getD index false then mask ||| (1 <<< index) else mask) 0

/-- `let compressed_mask = if mask > 7 { 15 - mask } else { mask }`. -/
def compressMask (mask : ℕ) : ℕ :=
  if mask > 7 then 15 - mask else mask

/-- `let inversed_mask = (mask > 7) != grid_inverse`. -/
def invertedFlag (mask : ℕ) (grid_inverse : Bool) : Bool :=
  (decide (mask > 7)) != grid_inverse

/-- Body of one face slot of `march_tetrahedras`: push one `Face`, its three
boundary `Edge`s, and the three refined crossing vertices for table entries
`e1, e2, e3`. -/
def emitFace {DATA : Type} (weight_function : Vec3 → DATA → ℚ)
    (refine_function : Vec3 → Vec3 → (Vec3 → DATA → ℚ) → DATA → ℚ → Vec3)
    (weight_user_data : DATA) (surface_weight : ℚ)
    (tetrahedron_indices : List ℕ) (vert_positions : List Vec3)
    (inversed_mask : Bool) (e1 e2 e3 : ℤ) (mesh : Mesh) : Mesh :=
  let face_vert_start_index := mesh.verts.length
  { verts := mesh.verts ++ ([e1, e2, e3].map (fun edge_index =>
      let edge_vert_offs := TETRAHEDRA_EDGES_TO_VERT_OFFSETS.getD edge_index.toNat []
      let vert_offs_1 := edge_vert_offs.getD 0 0
      let vert_offs_2 := edge_vert_offs.getD 1 0
      let vert_pos_1 := vert_positions.getD (tetrahedron_indices.getD vert_offs_1 0) default
      let vert_pos_2 := vert_positions.getD (tetrahedron_indices.getD vert_offs_2 0) default
      refine_function vert_pos_1 vert_pos_2 weight_function weight_user_data
        surface_weight)),
    faces := mesh.faces ++ [⟨face_vert_start_index,
      face_vert_start_index + (if inversed_mask then 2 else 1),
      face_vert_start_index + (if inversed_mask then 1 else 2)⟩],
    edges := mesh.edges ++
      [⟨face_vert_start_index, face_vert_start_index + 1⟩,
       ⟨face_vert_start_index + 1, face_vert_start_index + 2⟩,
       ⟨face_vert_start_index + 2, face_vert_start_index⟩] }

/-- The `for face_index in 0..2` loop of `march_tetrahedras`; the `break`
when the first table entry of a slot is `-1` stops the remaining slots. -/
def faceLoop {DATA : Type} (weight_function : Vec3 → DATA → ℚ)
    (refine_function : Vec3 → Vec3 → (Vec3 → DATA → ℚ) → DATA → ℚ → Vec3)
    (weight_user_data : DATA) (surface_weight : ℚ)
    (tetrahedron_indices : List ℕ) (vert_positions : List Vec3)
    (inversed_mask : Bool) (compressed_mask : ℕ) :
    List ℕ → Mesh → Mesh
  | [], mesh => mesh
  | face_index :: rest, mesh =>
    let row := TETRADEDRA_VERTMASK_TO_EDGES.getD compressed_mask []
    let e1 := row.getD (face_index * 3) (-1)
    let e2 := row.getD (face_index * 3 + 1) (-1)
    let e3 := row.getD (face_index * 3 + 2) (-1)
    if e1 = -1 then mesh
    else
      faceLoop weight_function refine_function weight_user_data surface_weight
        tetrahedron_indices vert_positions inversed_mask compressed_mask rest
        (emitFace weight_function refine_function weight_user_data
          surface_weight tetrahedron_indices vert_positions inversed_mask
          e1 e2 e3 mesh)

/-- Body of the `for tetrahedron_indices in GRID_TO_TETRAHEDRA_VERTICES`
loop of `march_tetrahedras`. -/
def processTet {DATA : Type} (weight_function : Vec3 → DATA → ℚ)
    (refine_function : Vec3 → Vec3 → (Vec3 → DATA → ℚ) → DATA → ℚ → Vec3)
    (weight_user_data : DATA) (surface_weight : ℚ)
    (vert_is_inside : List Bool) (grid_inverse : Bool)
    (vert_positions : List Vec3) (mesh : Mesh)
    (tetrahedron_indices : List ℕ) : Mesh :=
  let mask := computeMask (tetrahedron_indices.map
    (fun ti => vert_is_inside.getD ti false))
  faceLoop weight_function refine_function weight_user_data surface_weight
    tetrahedron_indices vert_positions (invertedFlag mask grid_inverse)
    (compressMask mask) [0, 1] mesh

/-- Body of the cell loop of `march_tetrahedras`: derive the cell's corner
ordering and parity, the corners' world positions, the inside/outside
classification (strict `weight > surface_weight`), and process the 5
tetrahedra. -/
def processCell {DATA : Type} (d : Domain) (weight_function : Vec3 → DATA → ℚ)
    (refine_function : Vec3 → Vec3 → (Vec3 → DATA → ℚ) → DATA → ℚ → Vec3)
    (weight_user_data : DATA) (cell_pos : IVec3) (mesh : Mesh) : Mesh :=
  let offs := get_vert_offsets cell_pos
  let vert_positions := offs.1.map (fun offset =>
    d.vertex_position (cell_pos + offset))
  let vert_is_inside := vert_positions.map (fun vert_position =>
    decide (weight_function vert_position weight_user_data > d.surface_weight))
  GRID_TO_TETRAHEDRA_VERTICES.foldl
    (processTet weight_function refine_function weight_user_data
      d.surface_weight vert_is_inside offs.2 vert_positions) mesh

/-- The mesh built by one run of `Domain::march_tetrahedras`: the triple
`for x / for y / for z` loop over `0..vertex_grid_size()` starting from
`Mesh::default()`. -/
def marchMesh {DATA : Type} (d : Domain) (weight_function : Vec3 → DATA → ℚ)
    (refine_function : Vec3 → Vec3 → (Vec3 → DATA → ℚ) → DATA → ℚ → Vec3)
    (weight_user_data : DATA) : Mesh :=
  (List.range d.vertex_grid_size.x.toNat).foldl (fun mx x =>
    (List.range d.vertex_grid_size.y.toNat).foldl (fun my y =>
      (List.range d.vertex_grid_size.z.toNat).foldl (fun mz z =>
        processCell d weight_function refine_function weight_user_data
          ⟨(x : ℤ), (y : ℤ), (z : ℤ)⟩ mz) my) mx) {}

/-- `Domain::march_tetrahedras`: build one mesh and push it onto
`self.meshes`; no other field of the domain is touched. -/
def Domain.march_tetrahedras {DATA : Type} (d : Domain)
    (weight_function : Vec3 → DATA → ℚ)
    (refine_function : Vec3 → Vec3 → (Vec3 → DATA → ℚ) → DATA → ℚ → Vec3)
    (weight_user_data : DATA) : Domain :=
  { d with meshes := d.meshes ++
      [marchMesh d weight_function refine_function weight_user_data] }

/-!
Statement vocabulary: segments in space (for the refiner contract), the mesh
bookkeeping invariants, and a small concrete domain used to instantiate the
theorems with hypotheses.
-/

/-- Affine interpolation between two points. -/
def lerp (v1 v2 : Vec3) (t : ℚ) : Vec3 :=
  ⟨v1.x + t * (v2.x - v1.x), v1.y + t * (v2.y - v1.y), v1.z + t * (v2.z - v1.z)⟩

/-- `p` lies on the closed segment from `v1` to `v2`. -/
def OnSeg (v1 v2 p : Vec3) : Prop :=
  ∃ t : ℚ, 0 ≤ t ∧ t ≤ 1 ∧ p = lerp v1 v2 t

/-- The mesh bookkeeping invariant: three vertices and three edges per face. -/
def countsOk (m : Mesh) : Prop :=
  m.verts.length = 3 * m.faces.length ∧ m.edges.length = 3 * m.faces.length

/-- Every face of the mesh indexes only existing vertices. -/
def facesInBounds (m : Mesh) : Prop :=
  ∀ f ∈ m.faces, f.v1 < m.verts.length ∧ f.v2 < m.verts.length ∧ f.v3 < m.verts.length

/-- A concrete 1×1×1-cell domain over the unit box with iso-value `83/2`,
used to instantiate theorems at concrete inputs. -/
def exampleDomain : Domain :=
  { from' := ⟨0, 0, 0⟩, to' := ⟨1, 1, 1⟩, surface_weight := 83/2,
    width := 1, height := 1, depth := 1, meshes := [] }

/-- A concrete scalar field, `x + 4y + 16z`; with `exampleDomain`'s iso-value
`83/2` exactly one grid corner (the corner at `(2,2,2)`) is classified inside. -/
def exampleWeight (p : Vec3) (_ : Unit) : ℚ := p.x + 4 * p.y + 16 * p.z

/-!  Helper lemmas. -/

theorem Vec3.eq_of (a b : Vec3) (hx : a.x = b.x) (hy : a.y = b.y) (hz : a.z = b.z) :
    a = b := by
  cases a; cases b; simp_all

theorem onSeg_fst (v1 v2 : Vec3) : OnSeg v1 v2 v1 :=
  ⟨0, le_refl 0, by norm_num,
   Vec3.eq_of _ _ (by simp [lerp]) (by simp [lerp]) (by simp [lerp])⟩

theorem onSeg_snd (v1 v2 : Vec3) : OnSeg v1 v2 v2 :=
  ⟨1, by norm_num, le_refl 1,
   Vec3.eq_of _ _ (by simp [lerp]) (by simp [lerp]) (by simp [lerp])⟩

theorem onSeg_center {DATA : Type} (v1 v2 p q : Vec3) (w : Vec3 → DATA → ℚ)
    (data : DATA) (sw : ℚ) (hp : OnSeg v1 v2 p) (hq : OnSeg v1 v2 q) :
    OnSeg v1 v2 (refine_function_center p q w data sw) := by
  obtain ⟨tp, hp0, hp1, hpe⟩ := hp
  obtain ⟨tq, hq0, hq1, hqe⟩ := hq
  refine ⟨(tp + tq) / 2, by linarith, by linarith, ?_⟩
  subst hpe hqe
  exact Vec3.eq_of _ _ (by simp [refine_function_center, lerp]; ring)
    (by simp [refine_function_center, lerp]; ring)
    (by simp [refine_function_center, lerp]; ring)

/-- The bisection loop is insensitive to the weight function's values off the
segment, and keeps its center on the segment. -/
theorem refineLoop_seg {DATA : Type} (v1 v2 : Vec3) (w w' : Vec3 → DATA → ℚ)
    (data : DATA) (sw : ℚ)
    (hag : ∀ p, OnSeg v1 v2 p → w p data = w' p data) :
    ∀ (n : ℕ) (pl pr pc : Vec3), OnSeg v1 v2 pl → OnSeg v1 v2 pr → OnSeg v1 v2 pc →
      refineLoop w data sw n pl pr pc = refineLoop w' data sw n pl pr pc ∧
      OnSeg v1 v2 (refineLoop w data sw n pl pr pc).2.2 := by
  intro n
  induction n with
  | zero => intro pl pr pc _ _ hc; exact ⟨rfl, hc⟩
  | succ n ih =>
    intro pl pr pc hl hr _
    have hcen : OnSeg v1 v2 (refine_function_center pl pr w data sw) :=
      onSeg_center v1 v2 pl pr w data sw hl hr
    have hcen' : refine_function_center pl pr w data sw =
        refine_function_center pl pr w' data sw := rfl
    have hwc : w (refine_function_center pl pr w data sw) data =
        w' (refine_function_center pl pr w data sw) data := hag _ hcen
    simp only [refineLoop]
    rw [← hcen', ← hwc]
    by_cases hc : w (refine_function_center pl pr w data sw) data < sw
    · simp only [if_pos hc]
      exact ih _ _ _ hcen hr hcen
    · simp only [if_neg hc]
      exact ih _ _ _ hl hcen hcen

theorem foldl_preserve {α β : Type _} (P : α → Prop) (f : α → β → α)
    (hf : ∀ a b, P a → P (f a b)) :
    ∀ (l : List β) (a : α), P a → P (l.foldl f a)
  | [], _, h => h
  | b :: l, a, h => foldl_preserve P f hf l (f a b) (hf a b h)

theorem emitFace_counts {DATA : Type} (w : Vec3 → DATA → ℚ)
    (r : Vec3 → Vec3 → (Vec3 → DATA → ℚ) → DATA → ℚ → Vec3) (data : DATA)
    (sw : ℚ) (tet : List ℕ) (vp : List Vec3) (inv : Bool) (e1 e2 e3 : ℤ)
    (m : Mesh) (h : countsOk m) :
    countsOk (emitFace w r data sw tet vp inv e1 e2 e3 m) := by
  obtain ⟨h1, h2⟩ := h
  constructor <;> simp [emitFace] <;> omega

theorem faceLoop_counts {DATA : Type} (w : Vec3 → DATA → ℚ)
    (r : Vec3 → Vec3 → (Vec3 → DATA → ℚ) → DATA → ℚ → Vec3) (data : DATA)
    (sw : ℚ) (tet : List ℕ) (vp : List Vec3) (inv : Bool) (cm : ℕ) :
    ∀ (l : List ℕ) (m : Mesh), countsOk m →
      countsOk (faceLoop w r data sw tet vp inv cm l m)
  | [], m, h => h
  | fi :: rest, m, h => by
    simp only [faceLoop]
    split
    · exact h
    · exact faceLoop_counts w r data sw tet vp inv cm rest _
        (emitFace_counts w r data sw tet vp inv _ _ _ m h)

theorem marchMesh_counts {DATA : Type} (d : Domain) (w : Vec3 → DATA → ℚ)
    (r : Vec3 → Vec3 → (Vec3 → DATA → ℚ) → DATA → ℚ → Vec3) (data : DATA) :
    countsOk (marchMesh d w r data) := by
  refine foldl_preserve (fun m => countsOk m) _ ?_ _ _ ⟨rfl, rfl⟩
  intro a x ha
  refine foldl_preserve (fun m => countsOk m) _ ?_ _ _ ha
  intro a' y ha'
  refine foldl_preserve (fun m => countsOk m) _ ?_ _ _ ha'
  intro a'' z ha''
  refine foldl_preserve (fun m => countsOk m) _ ?_ _ _ ha''
  intro m tet hm
  exact faceLoop_counts w r data d.surface_weight tet _ _ _ _ m hm

theorem emitFace_bounds {DATA : Type} (w : Vec3 → DATA → ℚ)
    (r : Vec3 → Vec3 → (Vec3 → DATA → ℚ) → DATA → ℚ → Vec3) (data : DATA)
    (sw : ℚ) (tet : List ℕ) (vp : List Vec3) (inv : Bool) (e1 e2 e3 : ℤ)
    (m : Mesh) (h : facesInBounds m) :
    facesInBounds (emitFace w r data sw tet vp inv e1 e2 e3 m) := by
  intro f hf
  have hlen : (emitFace w r data sw tet vp inv e1 e2 e3 m).verts.length =
      m.verts.length + 3 := by simp [emitFace]
  have hfaces : (emitFace w r data sw tet vp inv e1 e2 e3 m).faces =
      m.faces ++ [⟨m.verts.length,
        m.verts.length + (if inv then 2 else 1),
        m.verts.length + (if inv then 1 else 2)⟩] := rfl
  rw [hfaces] at hf
  rw [hlen]
  rcases List.mem_append.1 hf with hold | hnew
  · have := h f hold
    omega
  · have : f = ⟨m.verts.length,
        m.verts.length + (if inv then 2 else 1),
        m.verts.length + (if inv then 1 else 2)⟩ := by simpa using hnew
    subst this
    split <;> simp

theorem faceLoop_bounds {DATA : Type} (w : Vec3 → DATA → ℚ)
    (r : Vec3 → Vec3 → (Vec3 → DATA → ℚ) → DATA → ℚ → Vec3) (data : DATA)
    (sw : ℚ) (tet : List ℕ) (vp : List Vec3) (inv : Bool) (cm : ℕ) :
    ∀ (l : List ℕ) (m : Mesh), facesInBounds m →
      facesInBounds (faceLoop w r data sw tet vp inv cm l m)
  | [], m, h => h
  | fi :: rest, m, h => by
    simp only [faceLoop]
    split
    · exact h
    · exact faceLoop_bounds w r data sw tet vp inv cm rest _
        (emitFace_bounds w r data sw tet vp inv _ _ _ m h)

theorem marchMesh_bounds {DATA : Type} (d : Domain) (w : Vec3 → DATA → ℚ)
    (r : Vec3 → Vec3 → (Vec3 → DATA → ℚ) → DATA → ℚ → Vec3) (data : DATA) :
    facesInBounds (marchMesh d w r data) := by
  refine foldl_preserve (fun m => facesInBounds m) _ ?_ _ _ (by intro f hf; simp at hf)
  intro a x ha
  refine foldl_preserve (fun m => facesInBounds m) _ ?_ _ _ ha
  intro a' y ha'
  refine foldl_preserve (fun m => facesInBounds m) _ ?_ _ _ ha'
  intro a'' z ha''
  refine foldl_preserve (fun m => facesInBounds m) _ ?_ _ _ ha''
  intro m tet hm
  exact faceLoop_bounds w r data d.surface_weight tet _ _ _ _ m hm

theorem getD_all_neg1 : ∀ n : ℕ, (([-1, -1, -1, -1, -1, -1] : List ℤ))[n]?.getD (-1) = -1 := by
  intro n
  match n with
  | 0 => rfl
  | 1 => rfl
  | 2 => rfl
  | 3 => rfl
  | 4 => rfl
  | 5 => rfl
  | n + 6 =>
    have h : (([-1, -1, -1, -1, -1, -1] : List ℤ))[n + 6]? = none :=
      List.getElem?_eq_none (by simp)
    rw [h]
    rfl

/-- With compressed mask `0` the table row is all `-1`, so the face loop
emits nothing (the `break` fires immediately on the first slot). -/
theorem faceLoop_compressed_zero {DATA : Type} (w : Vec3 → DATA → ℚ)
    (r : Vec3 → Vec3 → (Vec3 → DATA → ℚ) → DATA → ℚ → Vec3) (data : DATA)
    (sw : ℚ) (tet : List ℕ) (vp : List Vec3) (inv : Bool) :
    ∀ (l : List ℕ) (m : Mesh), faceLoop w r data sw tet vp inv 0 l m = m := by
  intro l m
  cases l with
  | nil => rfl
  | cons fi rest =>
    simp only [faceLoop, TETRADEDRA_VERTMASK_TO_EDGES, List.getD]
    simp [getD_all_neg1 (fi * 3)]

theorem computeMask_all_true : computeMask [true, true, true, true] = 15 := by decide

theorem computeMask_all_false : computeMask [false, false, false, false] = 0 := by decide

theorem compressMask_15 : compressMask 15 = 0 := by decide

theorem compressMask_0 : compressMask 0 = 0 := by decide

/-- Under a constant field every tetrahedron's corners are classified alike
(mask `0` or `15`), so a cell contributes nothing to the mesh. -/
theorem processCell_const {DATA : Type} (d : Domain)
    (r : Vec3 → Vec3 → (Vec3 → DATA → ℚ) → DATA → ℚ → Vec3) (data : DATA)
    (c : ℚ) (cp : IVec3) (m : Mesh) :
    processCell d (fun _ _ => c) r data cp m = m := by
  by_cases hc : c > d.surface_weight <;>
    simp [processCell, get_vert_offsets, GRID_TO_VERT_OFFSETS,
      GRID_TO_TETRAHEDRA_VERTICES, processTet, hc, List.getD,
      computeMask_all_true, computeMask_all_false, compressMask_15, compressMask_0,
      faceLoop_compressed_zero]

theorem marchMesh_const {DATA : Type} (d : Domain)
    (r : Vec3 → Vec3 → (Vec3 → DATA → ℚ) → DATA → ℚ → Vec3) (data : DATA)
    (c : ℚ) :
    marchMesh d (fun _ _ => c) r data = {} := by
  refine foldl_preserve (fun m => m = ({} : Mesh)) _ ?_ _ _ rfl
  intro a x ha
  refine foldl_preserve (fun m => m = ({} : Mesh)) _ ?_ _ _ ha
  intro a' y ha'
  refine foldl_preserve (fun m => m = ({} : Mesh)) _ ?_ _ _ ha'
  intro a'' z ha''
  rw [processCell_const]
  exact ha''

/-!  Claim theorems. -/

/-- Claim C1: for every tetrahedron processed by `march_tetrahedras` (whose
mask, compression and inversion are computed by `computeMask`, `compressMask`
and `invertedFlag` inside `processTet`), the 4-bit vertex mask is formed
position-order — bit `k` of the mask is set iff the `k`-th entry of the
tetrahedron's inside/outside 4-tuple is `true`, least-significant bit first —
and then `compressed = 15 - mask` with `inverted = true XOR grid_inverse`
when `mask > 7`, else `compressed = mask` with `inverted = grid_inverse`. -/
theorem tet_mask_position_order_and_compression :
    ∀ b0 b1 b2 b3 : Bool, ∀ grid_inverse : Bool,
      (computeMask [b0, b1, b2, b3]).testBit 0 = b0 ∧
      (computeMask [b0, b1, b2, b3]).testBit 1 = b1 ∧
      (computeMask [b0, b1, b2, b3]).testBit 2 = b2 ∧
      (computeMask [b0, b1, b2, b3]).testBit 3 = b3 ∧
      (compressMask (computeMask [b0, b1, b2, b3]),
        invertedFlag (computeMask [b0, b1, b2, b3]) grid_inverse) =
        (if computeMask [b0, b1, b2, b3] > 7 then
          (15 - computeMask [b0, b1, b2, b3], xor true grid_inverse)
        else (computeMask [b0, b1, b2, b3], grid_inverse)) := by decide

/-- Claim C2: for every integer cell coordinate, `get_vert_offsets` returns
the 8 canonical corner offsets of `GRID_TO_VERT_OFFSETS` with each axis
component `c` replaced by `1 - c` exactly when that coordinate's absolute
value is odd, and a parity flag equal to `flip_x XOR flip_y XOR flip_z`. -/
theorem get_vert_offsets_flip_and_parity :
    ∀ cell_pos : IVec3,
      get_vert_offsets cell_pos =
        (GRID_TO_VERT_OFFSETS.map (fun v =>
          ⟨if decide (Odd cell_pos.x.natAbs) then 1 - v.x else v.x,
           if decide (Odd cell_pos.y.natAbs) then 1 - v.y else v.y,
           if decide (Odd cell_pos.z.natAbs) then 1 - v.z else v.z⟩),
         xor (decide (Odd cell_pos.x.natAbs))
           (xor (decide (Odd cell_pos.y.natAbs)) (decide (Odd cell_pos.z.natAbs)))) := by
  intro c
  have hodd : ∀ n : ℕ, decide (n &&& 1 ≠ 0) = decide (Odd n) := by
    intro n
    rw [decide_eq_decide, Nat.and_one_is_mod, Nat.odd_iff]
    exact ⟨fun h => by omega, fun h => by omega⟩
  have hxor : ∀ a b c : Bool,
      decide (Odd ([a, b, c].filter (fun v => v)).length) = xor a (xor b c) := by
    decide
  unfold get_vert_offsets
  simp only [hodd, hxor]

/-- Claim C3: for every scalar field, refiner, context and domain, the mesh
appended by `march_tetrahedras` (the last element of `meshes`, which is
`marchMesh`) satisfies `verts.length = 3 * faces.length` and
`edges.length = 3 * faces.length`. -/
theorem march_mesh_vert_edge_face_counts :
    ∀ (DATA : Type) (w : Vec3 → DATA → ℚ)
      (r : Vec3 → Vec3 → (Vec3 → DATA → ℚ) → DATA → ℚ → Vec3) (data : DATA)
      (d : Domain),
      (d.march_tetrahedras w r data).meshes.getLast? = some (marchMesh d w r data) ∧
      (marchMesh d w r data).verts.length = 3 * (marchMesh d w r data).faces.length ∧
      (marchMesh d w r data).edges.length = 3 * (marchMesh d w r data).faces.length := by
  intro DATA w r data d
  refine ⟨?_, (marchMesh_counts d w r data).1, (marchMesh_counts d w r data).2⟩
  simp [Domain.march_tetrahedras]

/-- Claim C4: every face slot emission appends one face with `v1 = base`
(the vertex count at the moment of the append) and `(v2, v3)` equal to
`(base+1, base+2)` when not inverted, `(base+2, base+1)` when inverted,
followed by exactly the three edge records `(base, base+1)`, `(base+1,
base+2)`, `(base+2, base)` and exactly three appended vertices; the face
loop performs exactly this emission whenever the slot's first table entry is
not `-1`; and in the finished mesh every face index is `< verts.length`. -/
theorem face_emission_structure_and_index_bounds :
    (∀ (DATA : Type) (w : Vec3 → DATA → ℚ)
      (r : Vec3 → Vec3 → (Vec3 → DATA → ℚ) → DATA → ℚ → Vec3) (data : DATA)
      (sw : ℚ) (tet : List ℕ) (vp : List Vec3) (inv : Bool) (e1 e2 e3 : ℤ)
      (mesh : Mesh),
      (emitFace w r data sw tet vp inv e1 e2 e3 mesh).faces =
        mesh.faces ++ [⟨mesh.verts.length,
          mesh.verts.length + (if inv then 2 else 1),
          mesh.verts.length + (if inv then 1 else 2)⟩] ∧
      (emitFace w r data sw tet vp inv e1 e2 e3 mesh).edges =
        mesh.edges ++ [⟨mesh.verts.length, mesh.verts.length + 1⟩,
          ⟨mesh.verts.length + 1, mesh.verts.length + 2⟩,
          ⟨mesh.verts.length + 2, mesh.verts.length⟩] ∧
      (emitFace w r data sw tet vp inv e1 e2 e3 mesh).verts.length =
        mesh.verts.length + 3) ∧
    (∀ (DATA : Type) (w : Vec3 → DATA → ℚ)
      (r : Vec3 → Vec3 → (Vec3 → DATA → ℚ) → DATA → ℚ → Vec3) (data : DATA)
      (sw : ℚ) (tet : List ℕ) (vp : List Vec3) (inv : Bool) (cm : ℕ)
      (fi : ℕ) (rest : List ℕ) (mesh : Mesh),
      (TETRADEDRA_VERTMASK_TO_EDGES.getD cm []).getD (fi * 3) (-1) ≠ -1 →
      faceLoop w r data sw tet vp inv cm (fi :: rest) mesh =
        faceLoop w r data sw tet vp inv cm rest
          (emitFace w r data sw tet vp inv
            ((TETRADEDRA_VERTMASK_TO_EDGES.getD cm []).getD (fi * 3) (-1))
            ((TETRADEDRA_VERTMASK_TO_EDGES.getD cm []).getD (fi * 3 + 1) (-1))
            ((TETRADEDRA_VERTMASK_TO_EDGES.getD cm []).getD (fi * 3 + 2) (-1)) mesh)) ∧
    (∀ (DATA : Type) (w : Vec3 → DATA → ℚ)
      (r : Vec3 → Vec3 → (Vec3 → DATA → ℚ) → DATA → ℚ → Vec3) (data : DATA)
      (d : Domain), ∀ f ∈ (marchMesh d w r data).faces,
      f.v1 < (marchMesh d w r data).verts.length ∧
      f.v2 < (marchMesh d w r data).verts.length ∧
      f.v3 < (marchMesh d w r data).verts.length) := by
  refine ⟨?_, ?_, ?_⟩
  · intro DATA w r data sw tet vp inv e1 e2 e3 mesh
    exact ⟨rfl, rfl, by simp [emitFace]⟩
  · intro DATA w r data sw tet vp inv cm fi rest mesh he
    simp only [faceLoop]
    rw [if_neg he]
  · intro DATA w r data d
    exact marchMesh_bounds d w r data

/-- Witness for C4 at a concrete input: the first face of the march over
`exampleDomain` with `exampleWeight` is `(0, 2, 1)` and its indices are below
the vertex count. -/
theorem face_emission_structure_and_index_bounds_witness :
    (⟨0, 2, 1⟩ : Face) ∈
      (marchMesh exampleDomain exampleWeight (@refine_function_center Unit) ()).faces ∧
    ((⟨0, 2, 1⟩ : Face).v1 <
      (marchMesh exampleDomain exampleWeight (@refine_function_center Unit) ()).verts.length ∧
     (⟨0, 2, 1⟩ : Face).v2 <
      (marchMesh exampleDomain exampleWeight (@refine_function_center Unit) ()).verts.length ∧
     (⟨0, 2, 1⟩ : Face).v3 <
      (marchMesh exampleDomain exampleWeight (@refine_function_center Unit) ()).verts.length) :=
  ⟨by with_unfolding_all decide,
   face_emission_structure_and_index_bounds.2.2 Unit exampleWeight
     (@refine_function_center Unit) () exampleDomain ⟨0, 2, 1⟩
     (by with_unfolding_all decide)⟩

/-- Claim C5, counterexample: with a constant weight function (both endpoint
weights equal) the bisection refiner is **not** symmetric in its endpoints:
for `f ≡ 0`, iso-value `1`, it returns `x = 255/256` for `(v1, v2)` but
`x = 1/256` for `(v2, v1)`. -/
theorem refine_linear_swap_asymmetric_at_equal_weights :
    ¬ (refine_function_linear ⟨0, 0, 0⟩ ⟨1, 0, 0⟩ (fun _ (_ : Unit) => 0) () 1 =
       refine_function_linear ⟨1, 0, 0⟩ ⟨0, 0, 0⟩ (fun _ (_ : Unit) => 0) () 1) := by
  with_unfolding_all decide

/-- Claim C5, amended: whenever the weight function's values at the two
endpoints differ, `refine_function_linear` is symmetric in its two endpoint
arguments (when the values coincide, the two calls bracket the segment in
opposite orders and may return different points). -/
theorem refine_linear_swap_symmetric_of_ne :
    ∀ (DATA : Type) (v1 v2 : Vec3) (w : Vec3 → DATA → ℚ) (data : DATA) (sw : ℚ),
      w v1 data ≠ w v2 data →
      refine_function_linear v1 v2 w data sw = refine_function_linear v2 v1 w data sw := by
  intro DATA v1 v2 w data sw h
  unfold refine_function_linear
  rcases lt_trichotomy (w v1 data) (w v2 data) with hlt | heq | hgt
  · simp only [gt_iff_lt, if_neg (asymm hlt), if_pos hlt]
  · exact absurd heq h
  · simp only [gt_iff_lt, if_pos hgt, if_neg (asymm hgt)]

/-- Witness for the amended C5 at a concrete input with distinct endpoint
weights. -/
theorem refine_linear_swap_symmetric_of_ne_witness :
    (fun p (_ : Unit) => p.x) (⟨0, 0, 0⟩ : Vec3) () ≠
      (fun p (_ : Unit) => p.x) (⟨1, 0, 0⟩ : Vec3) () ∧
    refine_function_linear ⟨0, 0, 0⟩ ⟨1, 0, 0⟩ (fun p (_ : Unit) => p.x) () (1/2) =
      refine_function_linear ⟨1, 0, 0⟩ ⟨0, 0, 0⟩ (fun p (_ : Unit) => p.x) () (1/2) :=
  ⟨by with_unfolding_all decide,
   refine_linear_swap_symmetric_of_ne Unit ⟨0, 0, 0⟩ ⟨1, 0, 0⟩
     (fun p (_ : Unit) => p.x) () (1/2) (by with_unfolding_all decide)⟩

/-- Claim C6: the bisection refiner only ever evaluates the weight function
on the segment `[v1, v2]` — formalised extensionally: two weight functions
that agree on the segment give the same result — and the point it returns
lies on that segment. -/
theorem refine_linear_confined_to_segment :
    ∀ (DATA : Type) (v1 v2 : Vec3) (w w' : Vec3 → DATA → ℚ) (data : DATA) (sw : ℚ),
      (∀ p, OnSeg v1 v2 p → w p data = w' p data) →
      refine_function_linear v1 v2 w data sw = refine_function_linear v1 v2 w' data sw ∧
      OnSeg v1 v2 (refine_function_linear v1 v2 w data sw) := by
  intro DATA v1 v2 w w' data sw hag
  unfold refine_function_linear
  have h1 : w v1 data = w' v1 data := hag v1 (onSeg_fst v1 v2)
  have h2 : w v2 data = w' v2 data := hag v2 (onSeg_snd v1 v2)
  simp only [gt_iff_lt, ← h1, ← h2]
  by_cases hc : w v2 data < w v1 data
  · simp only [if_pos hc]
    exact ⟨(refineLoop_seg v1 v2 w w' data sw hag 8 v2 v1 v2 (onSeg_snd v1 v2)
        (onSeg_fst v1 v2) (onSeg_snd v1 v2)).1 ▸ rfl,
      (refineLoop_seg v1 v2 w w' data sw hag 8 v2 v1 v2 (onSeg_snd v1 v2)
        (onSeg_fst v1 v2) (onSeg_snd v1 v2)).2⟩
  · simp only [if_neg hc]
    exact ⟨(refineLoop_seg v1 v2 w w' data sw hag 8 v1 v2 v1 (onSeg_fst v1 v2)
        (onSeg_snd v1 v2) (onSeg_fst v1 v2)).1 ▸ rfl,
      (refineLoop_seg v1 v2 w w' data sw hag 8 v1 v2 v1 (onSeg_fst v1 v2)
        (onSeg_snd v1 v2) (onSeg_fst v1 v2)).2⟩

/-- Witness for C6 at a concrete input: the bisection result for the field
`p.x` on the unit segment lies on that segment. -/
theorem refine_linear_confined_to_segment_witness :
    OnSeg ⟨0, 0, 0⟩ ⟨1, 0, 0⟩
      (refine_function_linear ⟨0, 0, 0⟩ ⟨1, 0, 0⟩ (fun p (_ : Unit) => p.x) () (1/2)) :=
  (refine_linear_confined_to_segment Unit ⟨0, 0, 0⟩ ⟨1, 0, 0⟩
    (fun p (_ : Unit) => p.x) (fun p (_ : Unit) => p.x) () (1/2) (fun _ _ => rfl)).2

/-- Claim C7: with a constant scalar field `f ≡ c`, `c ≠ iso`, the mesh
built by `march_tetrahedras` has zero faces, zero vertices and zero edges,
for every domain and refiner. -/
theorem march_constant_field_empty_mesh :
    ∀ (DATA : Type) (r : Vec3 → Vec3 → (Vec3 → DATA → ℚ) → DATA → ℚ → Vec3)
      (data : DATA) (d : Domain) (c : ℚ), c ≠ d.surface_weight →
      (marchMesh d (fun _ _ => c) r data).faces = [] ∧
      (marchMesh d (fun _ _ => c) r data).verts = [] ∧
      (marchMesh d (fun _ _ => c) r data).edges = [] := by
  intro DATA r data d c _
  rw [marchMesh_const]
  exact ⟨rfl, rfl, rfl⟩

/-- Witness for C7 at a concrete input: constant field `0` against
`exampleDomain`'s iso-value `83/2`. -/
theorem march_constant_field_empty_mesh_witness :
    (0 : ℚ) ≠ exampleDomain.surface_weight ∧
    ((marchMesh exampleDomain (fun _ _ => (0 : ℚ)) (@refine_function_center Unit) ()).faces = [] ∧
     (marchMesh exampleDomain (fun _ _ => (0 : ℚ)) (@refine_function_center Unit) ()).verts = [] ∧
     (marchMesh exampleDomain (fun _ _ => (0 : ℚ)) (@refine_function_center Unit) ()).edges = []) :=
  ⟨by with_unfolding_all decide,
   march_constant_field_empty_mesh Unit (@refine_function_center Unit) ()
     exampleDomain 0 (by with_unfolding_all decide)⟩

/-- Claim C8: `march_tetrahedras` appends exactly one mesh (the meshes list
becomes the old list plus `marchMesh`, its length grows by one) and leaves
`from`, `to`, the iso-value and the three resolutions unchanged. -/
theorem march_appends_exactly_one_mesh :
    ∀ (DATA : Type) (w : Vec3 → DATA → ℚ)
      (r : Vec3 → Vec3 → (Vec3 → DATA → ℚ) → DATA → ℚ → Vec3) (data : DATA)
      (d : Domain),
      (d.march_tetrahedras w r data).meshes = d.meshes ++ [marchMesh d w r data] ∧
      (d.march_tetrahedras w r data).meshes.length = d.meshes.length + 1 ∧
      (d.march_tetrahedras w r data).from' = d.from' ∧
      (d.march_tetrahedras w r data).to' = d.to' ∧
      (d.march_tetrahedras w r data).surface_weight = d.surface_weight ∧
      (d.march_tetrahedras w r data).width = d.width ∧
      (d.march_tetrahedras w r data).height = d.height ∧
      (d.march_tetrahedras w r data).depth = d.depth := by
  intro DATA w r data d
  simp [Domain.march_tetrahedras]

/-- Claim C9: the marcher's cell loop runs one past the nominal grid, so it
samples and can emit vertices strictly outside the `[from, to]` box: for any
domain with `from.x < to.x` and positive width, the corner at grid index
`width + 1` maps to an `x`-coordinate exceeding `to.x`; and concretely the
march over `exampleDomain` (unit box, one cell per axis) emits a vertex with
`x > to.x`. -/
theorem march_samples_outside_domain_box :
    (∀ (d : Domain) (j k : ℤ), d.from'.x < d.to'.x → 0 < d.width →
      d.to'.x < (d.vertex_position ⟨(d.width : ℤ) + 1, j, k⟩).x) ∧
    (∃ v ∈ (marchMesh exampleDomain exampleWeight (@refine_function_center Unit) ()).verts,
      exampleDomain.to'.x < v.x) := by
  constructor
  · intro d j k hlt hw
    unfold Domain.vertex_position
    have hw' : (0 : ℚ) < (d.width : ℚ) := by exact_mod_cast hw
    have key : d.from'.x + (((d.width : ℤ) + 1 : ℤ) : ℚ) * (d.to'.x - d.from'.x) / (d.width : ℚ)
        = d.to'.x + (d.to'.x - d.from'.x) / (d.width : ℚ) := by
      push_cast
      field_simp
      ring
    simp only
    rw [key]
    have hpos : 0 < (d.to'.x - d.from'.x) / (d.width : ℚ) :=
      div_pos (sub_pos.2 hlt) hw'
    linarith
  · with_unfolding_all decide

/-- Witness for C9's universally quantified part at `exampleDomain`. -/
theorem march_samples_outside_domain_box_witness :
    exampleDomain.from'.x < exampleDomain.to'.x ∧ 0 < exampleDomain.width ∧
    exampleDomain.to'.x <
      (exampleDomain.vertex_position ⟨(exampleDomain.width : ℤ) + 1, 0, 0⟩).x :=
  ⟨by with_unfolding_all decide, by decide,
   march_samples_outside_domain_box.1 exampleDomain 0 0
     (by with_unfolding_all decide) (by decide)⟩

/-- Claim C10: every index the marcher uses is in bounds: any 4-bit mask
compresses below the 8 rows of `TETRADEDRA_VERTMASK_TO_EDGES`; every row has
6 entries, each `-1` or a valid index into the 6 entries of
`TETRAHEDRA_EDGES_TO_VERT_OFFSETS`; each of those entries is a pair of local
corner indices below 4; and every tetrahedron corner index is below the 8
corner offsets of `GRID_TO_VERT_OFFSETS`.  (The Lean embedding is total by
construction; these bounds show the `getD` defaults are never taken.) -/
theorem march_table_indices_in_bounds :
    (∀ b0 b1 b2 b3 : Bool,
      computeMask [b0, b1, b2, b3] < 16 ∧
      compressMask (computeMask [b0, b1, b2, b3]) < TETRADEDRA_VERTMASK_TO_EDGES.length) ∧
    (∀ row ∈ TETRADEDRA_VERTMASK_TO_EDGES, row.length = 6 ∧
      ∀ e ∈ row, e = -1 ∨ (0 ≤ e ∧ e.toNat < TETRAHEDRA_EDGES_TO_VERT_OFFSETS.length)) ∧
    (∀ pair ∈ TETRAHEDRA_EDGES_TO_VERT_OFFSETS, pair.length = 2 ∧ ∀ i ∈ pair, i < 4) ∧
    (∀ tet ∈ GRID_TO_TETRAHEDRA_VERTICES, tet.length = 4 ∧
      ∀ ci ∈ tet, ci < GRID_TO_VERT_OFFSETS.length) := by decide

/-- Witness for C10 at a concrete input: table row `[1,2,3,3,2,5]` and its
entry `3`. -/
theorem march_table_indices_in_bounds_witness :
    (3 : ℤ) ∈ ([1, 2, 3, 3, 2, 5] : List ℤ) ∧
    ((3 : ℤ) = -1 ∨ (0 ≤ (3 : ℤ) ∧
      (3 : ℤ).toNat < TETRAHEDRA_EDGES_TO_VERT_OFFSETS.length)) :=
  ⟨by decide,
   (march_table_indices_in_bounds.2.1 [1, 2, 3, 3, 2, 5] (by decide)).2 3 (by decide)⟩
